import Mathlib

/-!
Verification of the gograb concurrent downloader (`main.go`,
`ratelimiter.go`, `util.go`) against its specification.

Strings produced or inspected by the program are modelled as `List Char`;
Go `int64` values are modelled as `Int` (no arithmetic here approaches the
64-bit range); Go `error` values are modelled by the inductive `TaskErr`,
with one constructor per error the `start` code path can produce and an
opaque tag for environment-supplied errors.
-/

namespace GoGrab

/-- Characters of the decimal representation of an integer, as produced by
the Go `%d` verb of `fmt.Sprintf`: a minus sign followed by the digits for
negative values, plain digits otherwise. -/
def goIntChars (n : Int) : List Char :=
  if n < 0 then '-' :: Nat.toDigits 10 (-n).toNat else Nat.toDigits 10 n.toNat

/-- Go `fmt.Sprintf` with verb `%2d`: minimum field width 2, right aligned,
space padded, never truncating. -/
def sprintf2d (n : Int) : List Char :=
  let s := goIntChars n
  if s.length < 2 then ' ' :: s else s

/-- Model of `durationToString` from `util.go`, over character lists.  The Go
function recurses exactly once in the hours branch (its recursive argument is
`seconds % 3600`, already below 3600), so the recursion is carried by a fuel
argument; `durationGo_fuel` below shows every fuel bound of at least 2
computes the same function, so `durationToString := durationGo 2` is the Go
function.  All divisions reached by the Go code have non-negative operands
(negative inputs stop in the first branch); `Int.tdiv` / `Int.tmod` are the
Go (truncating) `/` and `%`. -/
def durationGo : Nat → Int → List Char
  | 0, _ => []
  | fuel + 1, seconds =>
    if seconds < 60 then
      sprintf2d seconds ++ ['s']
    else if seconds < 3600 then
      let minutes := Int.tdiv seconds 60
      let remainder := Int.tmod seconds 60
      if remainder = 0 then sprintf2d minutes ++ ['m']
      else sprintf2d minutes ++ ['m'] ++ sprintf2d remainder ++ ['s']
    else
      let hours := Int.tdiv seconds 3600
      let remainder := Int.tmod seconds 3600
      if remainder = 0 then sprintf2d hours ++ ['h']
      else sprintf2d hours ++ ['h'] ++ durationGo fuel remainder

/-- Model of `durationToString` from `util.go` (see `durationGo`). -/
def durationToString (seconds : Int) : List Char :=
  durationGo 2 seconds

theorem durationGo_lt_3600 (f : Nat) (s : Int) (h : s < 3600) :
    durationGo (f + 1) s = durationGo 1 s := by
  simp only [durationGo]
  split_ifs <;> rfl

/-- Any fuel bound of at least two computes the Go function: the single
recursive call receives `seconds % 3600 < 3600` and stops without further
recursion. -/
theorem durationGo_fuel (f : Nat) (s : Int) :
    durationGo (f + 2) s = durationToString s := by
  by_cases h : s < 3600
  · rw [show f + 2 = (f + 1) + 1 from rfl, durationGo_lt_3600 (f + 1) s h,
      durationToString, show (2 : Nat) = 1 + 1 from rfl, durationGo_lt_3600 1 s h]
  · have hmod : Int.tmod s 3600 < 3600 := by
      have := Int.tmod_lt_of_pos s (show (0 : Int) < 3600 by norm_num)
      omega
    have h1 : ¬s < 60 := by omega
    simp only [durationToString, durationGo, if_neg h1, if_neg h]
    by_cases h2 : Int.tmod s 3600 = 0
    · simp [h2]
    · simp only [if_neg h2]
      split_ifs <;> rfl

/-- Model of `getETAString` from `main.go`, with the task fields as
arguments.  The throughput field is a `float64` in Go, but it is only
compared with zero and then converted by `int64(...)`; the model takes that
converted integer directly.  (The float case `0 < bytesPerSecond < 1`, where
the Go conversion yields 0 and the division faults, is outside this integer
model.)  The division is Go (truncating) integer division. -/
def getETAString (totalFileSize bytesRead bytesPerSecond : Int) : List Char :=
  if totalFileSize = 0 ∨ bytesPerSecond = 0 then "N/A".toList
  else durationToString (Int.tdiv (totalFileSize - bytesRead) bytesPerSecond)

/-- The NUL character. -/
def nulChar : Char := Char.ofNat 0

/-- Split a character list on '/', mirroring `strings.Split(s, "/")`:
n separators yield n + 1 (possibly empty) fields. -/
def splitOnSlash : List Char → List (List Char)
  | [] => [[]]
  | c :: cs =>
    if c = '/' then [] :: splitOnSlash cs
    else
      match splitOnSlash cs with
      | [] => [[c]]
      | s :: rest => (c :: s) :: rest

/-- One segment step of Go `path.Clean` on a rooted path: empty and "."
segments are dropped, ".." pops the most recent kept segment (or nothing at
the root), and any other segment is kept. -/
def cleanStep (stack : List (List Char)) (seg : List Char) : List (List Char) :=
  if seg = [] ∨ seg = ['.'] then stack
  else if seg = ['.', '.'] then stack.dropLast
  else stack ++ [seg]

/-- The segments of `path.Clean("/" ++ name)`: the leading '/' makes the path
rooted, so Go's lexical cleaning is the segment-stack fold below (the empty
first field produced by the leading separator is dropped by `cleanStep`). -/
def cleanRootedSegs (name : List Char) : List (List Char) :=
  (splitOnSlash name).foldl cleanStep []

/-- Model of `filepath.Base(path.Clean("/" ++ name))` on Unix: the last
segment of the cleaned rooted path, or "/" when the cleaned path is the bare
root (Go `Base` returns "/" once all separators are stripped away). -/
def baseOfCleanRooted (name : List Char) : List Char :=
  match (cleanRootedSegs name).getLast? with
  | some seg => seg
  | none => ['/']

/-- The name `extractFilename` starts from: the URL path, overridden by the
`filename` parameter of a parsable Content-Disposition header
(`util.go` lines 66-71). -/
def derivedName (urlPath : List Char) (cdFilename : Option (List Char)) :
    List Char :=
  match cdFilename with
  | some v => v
  | none => urlPath

/-- Model of `extractFilename` from `util.go`.  `urlPath` is
`response.Request.URL.Path`; `cdFilename` is `some v` when a
Content-Disposition header is present and `mime.ParseMediaType` succeeds, in
which case `v` is the value of its `filename` parameter (the empty list when
the parameter is absent), and `none` otherwise.  The result is `none` for
the `ErrMissingFilename` failure, `some name` otherwise. -/
def extractFilename (urlPath : List Char) (cdFilename : Option (List Char)) :
    Option (List Char) :=
  let filename := derivedName urlPath cdFilename
  if filename = [] ∨ filename.getLast? = some '/' ∨ nulChar ∈ filename then none
  else
    let cleaned := baseOfCleanRooted filename
    if cleaned = [] ∨ cleaned = ['.'] ∨ cleaned = ['/'] then none
    else some cleaned

/-- One second in the nanosecond ticks of Go `time.Duration`. -/
def oneSecond : Int := 1000000000

/-- State of the `rateLimiter` struct (`ratelimiter.go`); times are absolute
instants in nanoseconds. -/
structure RateLimiterState where
  lastReadBytes : Int
  lastCheckTime : Int
  limit : Int
deriving DecidableEq

/-- Model of `wait` from `ratelimiter.go`.  `now` is the instant returned by
`time.Now()` on entry; sleeping is modelled as exact, so the `time.Now()`
taken after the sleep is `now + sleepDuration`.  Returns the updated limiter
state and the slept duration. -/
def wait (rl : RateLimiterState) (now currentReadBytes : Int) :
    RateLimiterState × Int :=
  let elapsedTime := now - rl.lastCheckTime
  if elapsedTime ≤ oneSecond then
    let bytesReadSinceLastCheck := currentReadBytes - rl.lastReadBytes
    if bytesReadSinceLastCheck ≥ rl.limit then
      let sleepDuration := oneSecond - elapsedTime
      ({ lastReadBytes := currentReadBytes,
         lastCheckTime := now + sleepDuration,
         limit := rl.limit }, sleepDuration)
    else (rl, 0)
  else
    ({ lastReadBytes := currentReadBytes, lastCheckTime := now,
       limit := rl.limit }, 0)

theorem splitOnSlash_ne_nil : ∀ cs : List Char, splitOnSlash cs ≠ []
  | [] => by simp [splitOnSlash]
  | c :: cs => by
    simp only [splitOnSlash]
    split_ifs
    · simp
    · cases h : splitOnSlash cs <;> simp

theorem no_slash_of_mem_splitOnSlash :
    ∀ (cs : List Char) (s : List Char), s ∈ splitOnSlash cs → '/' ∉ s := by
  intro cs
  induction cs with
  | nil =>
    intro s hs
    simp [splitOnSlash] at hs
    simp [hs]
  | cons c cs ih =>
    intro s hs
    simp only [splitOnSlash] at hs
    by_cases hc : c = '/'
    · rw [if_pos hc] at hs
      rcases List.mem_cons.mp hs with h | h
      · simp [h]
      · exact ih s h
    · rw [if_neg hc] at hs
      cases hsp : splitOnSlash cs with
      | nil => exact absurd hsp (splitOnSlash_ne_nil cs)
      | cons t rest =>
        rw [hsp] at hs
        rcases List.mem_cons.mp hs with h | h
        · subst h
          intro hmem
          rcases List.mem_cons.mp hmem with h2 | h2
          · exact hc h2.symm
          · exact ih t (by rw [hsp]; exact List.mem_cons_self t rest) h2
        · exact ih s (by rw [hsp]; exact List.mem_cons_of_mem t h)

/-- A segment that survives the rooted cleaning fold: nonempty, not ".",
not "..", and free of separators. -/
def goodSeg (s : List Char) : Prop :=
  s ≠ [] ∧ s ≠ ['.'] ∧ s ≠ ['.', '.'] ∧ '/' ∉ s

theorem cleanStep_good {stack : List (List Char)} {seg : List Char}
    (hstack : ∀ t ∈ stack, goodSeg t) (hseg : '/' ∉ seg) :
    ∀ t ∈ cleanStep stack seg, goodSeg t := by
  intro t ht
  unfold cleanStep at ht
  split_ifs at ht with h1 h2
  · exact hstack t ht
  · exact hstack t (List.dropLast_subset _ ht)
  · rcases List.mem_append.mp ht with h | h
    · exact hstack t h
    · have hts : t = seg := by simpa using h
      subst hts
      push_neg at h1
      exact ⟨h1.1, h1.2, h2, hseg⟩

theorem foldl_cleanStep_good :
    ∀ (segs : List (List Char)) (init : List (List Char)),
      (∀ t ∈ init, goodSeg t) → (∀ s ∈ segs, '/' ∉ s) →
      ∀ t ∈ segs.foldl cleanStep init, goodSeg t := by
  intro segs
  induction segs with
  | nil => intro init hinit _ t ht; exact hinit t ht
  | cons s segs ih =>
    intro init hinit hsegs t ht
    simp only [List.foldl_cons] at ht
    exact ih (cleanStep init s)
      (cleanStep_good hinit (hsegs s (List.mem_cons_self _ _)))
      (fun u hu => hsegs u (List.mem_cons_of_mem _ hu)) t ht

theorem cleanRootedSegs_good (name : List Char) :
    ∀ t ∈ cleanRootedSegs name, goodSeg t :=
  foldl_cleanStep_good (splitOnSlash name) [] (by simp)
    (fun s hs => no_slash_of_mem_splitOnSlash name s hs)

/-- What `extractFilename` itself guarantees: rejection of every empty,
trailing-separator or NUL-containing derived name, and escape-freeness of
every accepted name (a single nonempty path component other than "." and
".."). -/
theorem extractFilename_spec (urlPath : List Char)
    (cdFilename : Option (List Char)) :
    ((derivedName urlPath cdFilename = [] ∨
      (derivedName urlPath cdFilename).getLast? = some '/' ∨
      nulChar ∈ derivedName urlPath cdFilename) →
      extractFilename urlPath cdFilename = none) ∧
    (∀ r, extractFilename urlPath cdFilename = some r →
      '/' ∉ r ∧ r ≠ [] ∧ r ≠ ['.'] ∧ r ≠ ['.', '.']) := by
  constructor
  · intro h
    simp only [extractFilename]
    rw [if_pos h]
  · intro r hr
    simp only [extractFilename] at hr
    split_ifs at hr with h1 h2
    · have hrb : baseOfCleanRooted (derivedName urlPath cdFilename) = r :=
        Option.some_injective _ hr
      push_neg at h2
      unfold baseOfCleanRooted at hrb h2
      cases hlast : (cleanRootedSegs (derivedName urlPath cdFilename)).getLast? with
      | none =>
        rw [hlast] at h2
        exact absurd rfl h2.2.2
      | some seg =>
        rw [hlast] at hrb
        have hmem : seg ∈ cleanRootedSegs (derivedName urlPath cdFilename) := by
          have : seg ∈ (cleanRootedSegs (derivedName urlPath cdFilename)).getLast? := by
            rw [hlast]; rfl
          obtain ⟨hne, hg⟩ := List.mem_getLast?_eq_getLast this
          rw [hg]
          exact List.getLast_mem hne
        obtain ⟨g1, g2, g3, g4⟩ := cleanRootedSegs_good _ seg hmem
        subst hrb
        exact ⟨g4, g1, g2, g3⟩

/-- C2: for every call of the limiter's `wait` with current byte count `cur`
at instant `now`: if at most one second elapsed since the checkpoint and the
bytes read since the checkpoint reached or exceeded the ceiling, `wait`
sleeps exactly the remainder of that second and resets the checkpoint to the
post-sleep instant and the current count; if more than one second elapsed it
resets the checkpoint without sleeping; otherwise it neither sleeps nor
changes the state. -/
theorem c2_wait_cases (rl : RateLimiterState) (now cur : Int) :
    (now - rl.lastCheckTime ≤ oneSecond →
      cur - rl.lastReadBytes ≥ rl.limit →
      wait rl now cur =
        ({ lastReadBytes := cur,
           lastCheckTime := now + (oneSecond - (now - rl.lastCheckTime)),
           limit := rl.limit }, oneSecond - (now - rl.lastCheckTime))) ∧
    (oneSecond < now - rl.lastCheckTime →
      wait rl now cur =
        ({ lastReadBytes := cur, lastCheckTime := now, limit := rl.limit }, 0)) ∧
    (now - rl.lastCheckTime ≤ oneSecond →
      cur - rl.lastReadBytes < rl.limit →
      wait rl now cur = (rl, 0)) := by
  refine ⟨?_, ?_, ?_⟩
  · intro h1 h2
    simp only [wait]
    rw [if_pos h1, if_pos h2]
  · intro h1
    simp only [wait]
    rw [if_neg (by omega)]
  · intro h1 h2
    simp only [wait]
    rw [if_pos h1, if_neg (by omega)]

/-- C2 witness: checkpoint at instant 0 with 0 bytes and ceiling 100;
calling `wait` at 0.4s having read 100 bytes sleeps the remaining 0.6s and
resets the checkpoint to the post-sleep instant 1s with 100 bytes. -/
theorem c2_wait_cases_witness :
    wait { lastReadBytes := 0, lastCheckTime := 0, limit := 100 } 400000000 100 =
      ({ lastReadBytes := 100, lastCheckTime := 1000000000, limit := 100 },
       600000000) := by
  have h := (c2_wait_cases { lastReadBytes := 0, lastCheckTime := 0, limit := 100 }
      400000000 100).1 (by norm_num [oneSecond]) (by norm_num)
  simpa [oneSecond] using h

theorem durationGo_succ (fuel : Nat) (seconds : Int) :
    durationGo (fuel + 1) seconds =
      (if seconds < 60 then sprintf2d seconds ++ ['s']
       else if seconds < 3600 then
         (if Int.tmod seconds 60 = 0 then sprintf2d (Int.tdiv seconds 60) ++ ['m']
          else sprintf2d (Int.tdiv seconds 60) ++ ['m'] ++
            sprintf2d (Int.tmod seconds 60) ++ ['s'])
       else
         (if Int.tmod seconds 3600 = 0 then sprintf2d (Int.tdiv seconds 3600) ++ ['h']
          else sprintf2d (Int.tdiv seconds 3600) ++ ['h'] ++
            durationGo fuel (Int.tmod seconds 3600))) := rfl

theorem durationGo_getLast (f : Nat) :
    ∀ s : Int, (durationGo (f + 1) s).getLast? = some 's' ∨
      (durationGo (f + 1) s).getLast? = some 'm' ∨
      (durationGo (f + 1) s).getLast? = some 'h' := by
  induction f with
  | zero =>
    intro s
    rw [durationGo_succ]
    split_ifs
    · exact Or.inl (List.getLast?_concat _)
    · exact Or.inr (Or.inl (List.getLast?_concat _))
    · exact Or.inl (List.getLast?_concat _)
    · exact Or.inr (Or.inr (List.getLast?_concat _))
    · rw [show durationGo 0 (Int.tmod s 3600) = [] from rfl, List.append_nil]
      exact Or.inr (Or.inr (List.getLast?_concat _))
  | succ f ih =>
    intro s
    rw [durationGo_succ]
    split_ifs
    · exact Or.inl (List.getLast?_concat _)
    · exact Or.inr (Or.inl (List.getLast?_concat _))
    · exact Or.inl (List.getLast?_concat _)
    · exact Or.inr (Or.inr (List.getLast?_concat _))
    · have hne : durationGo (f + 1) (Int.tmod s 3600) ≠ [] := by
        rcases ih (Int.tmod s 3600) with h | h | h <;>
          · intro hnil
            rw [hnil] at h
            simp at h
      rw [List.getLast?_append_of_ne_nil _ hne]
      exact ih (Int.tmod s 3600)

theorem durationToString_ne_NA (s : Int) :
    durationToString s ≠ "N/A".toList := by
  intro h
  have hlast := durationGo_getLast 1 s
  have h2 : durationGo (1 + 1) s = "N/A".toList := h
  rw [h2] at hlast
  rcases hlast with h3 | h3 | h3 <;> exact absurd h3 (by decide)

/-- C8 counterexample: a task with unknown total size (`ContentLength = -1`,
the Go sentinel, hence non-positive) and throughput 5 B/s: the claim demands
"N/A", but `getETAString` only special-cases a total of exactly 0 and
returns the formatted value " 0s". -/
theorem c8_eta_counterexample :
    getETAString (-1) 0 5 = [' ', '0', 's'] ∧
    getETAString (-1) 0 5 ≠ "N/A".toList := by
  constructor
  · decide
  · decide

/-- C8 amended: the ETA string is "N/A" exactly when the total size is 0 or
the (integer) throughput is 0; in every other case — including a negative
or unknown total — it is the formatted truncating quotient
`(total - bytesRead) / bytesPerSecond`. -/
theorem c8_eta (total read bps : Int) :
    (getETAString total read bps = "N/A".toList ↔ total = 0 ∨ bps = 0) ∧
    (total ≠ 0 → bps ≠ 0 →
      getETAString total read bps =
        durationToString (Int.tdiv (total - read) bps)) := by
  constructor
  · constructor
    · intro h
      by_contra hc
      push_neg at hc
      rw [getETAString, if_neg (by tauto)] at h
      exact durationToString_ne_NA _ h
    · intro h
      rw [getETAString, if_pos h]
  · intro h1 h2
    rw [getETAString, if_neg (by tauto)]

/-- C8 amended witness: total 2, read 0, throughput 1 — both nonzero, so the
ETA is the formatted quotient. -/
theorem c8_eta_witness :
    ((2 : Int) ≠ 0 ∧ (1 : Int) ≠ 0) ∧
    getETAString 2 0 1 = durationToString (Int.tdiv (2 - 0) 1) :=
  ⟨⟨by norm_num, by norm_num⟩, (c8_eta 2 0 1).2 (by norm_num) (by norm_num)⟩

/-- Go `error` values distinguished along the `start` code path
(`main.go`). -/
inductive TaskErr where
  | httpStatus (code : Int)
  | alreadyDownloaded
  | shortWrite
  | eof
  | nilDeref
  | msg (s : String)
  | other (tag : Nat)
deriving DecidableEq

/-- A recovered panic value (the result of `recover()`), as the type switch
of the recovery barrier distinguishes it: a string, a value implementing
`error`, or anything else. -/
inductive PanicVal where
  | str (s : String)
  | errVal (e : TaskErr)
  | otherVal
deriving DecidableEq

/-- The recovery barrier's conversion of a panic value into the captured
error (`main.go` lines 242-250). -/
def convertPanic : PanicVal → TaskErr
  | .str s => .msg s
  | .errVal e => e
  | .otherVal => .msg "unknown panic occurred"

/-- The parts of an HTTP response observed by `start`: status, declared
content length (`-1` is Go's unknown sentinel), the two range-support
headers, and the inputs of `extractFilename`. -/
structure Response where
  statusCode : Int
  contentLength : Int
  acceptRanges : String
  contentRange : String
  urlPath : List Char
  cdFilename : Option (List Char)
deriving DecidableEq

/-- The result of a successful `os.Stat`. -/
structure StatInfo where
  isDir : Bool
  size : Nat
deriving DecidableEq

/-- The external outcome of one transfer-loop iteration: the pair returned
by `source.Read` and, when `readN > 0`, the pair returned by
`destination.Write`; or a panic raised inside the iteration. -/
inductive IoStep where
  | step (readN : Nat) (readErr : Option TaskErr) (writeN : Nat)
      (writeErr : Option TaskErr)
  | panicked (p : PanicVal)
deriving DecidableEq

/-- Everything external a single `start` execution interacts with.  A `none`
response models a transport error (`client.Do` returning a non-nil error and
a nil response).  `openOk` / `createOk` are the outcomes of `os.OpenFile` /
`os.Create`.  When `steps` is exhausted, every further read is modelled as
returning `(0, io.EOF)`, so the model covers exactly the terminating
executions. -/
structure Env where
  resp1 : Option Response
  statResult : Option StatInfo
  resp2 : Option Response
  openOk : Bool
  createOk : Bool
  steps : List IoStep
deriving DecidableEq

/-- The observable events of one `start` execution, in program order. -/
inductive Event where
  | rangeRequest (offsetBytes : Nat)
  | closeBody
  | openExisting
  | seekEnd
  | seedBytes (v : Nat)
  | createDest
  | startSampler
  | readBody (n : Nat)
  | writeDest (n : Nat)
  | addBytes (n : Nat)
  | setError (e : Option TaskErr)
  | complete
deriving DecidableEq

/-- The final task state together with the event trace of the execution.
`error`, `bytesRead`, `totalFileSize`, `isResumable` and `fileName` are the
corresponding `downloadTask` fields when the completion channel is closed. -/
structure TaskFinal where
  error : Option TaskErr
  bytesRead : Int
  totalFileSize : Int
  isResumable : Bool
  fileName : List Char
  trace : List Event
deriving DecidableEq

/-- The transfer loop of `start` (`main.go` lines 338-356), driven by the
environment's step list.  Per iteration: read; if bytes were read, write
them, and a write error or a short count assigns `io.ErrShortWrite` to
`dt.error` (an event here) and breaks — but the loop-exit value of the local
`err` is the write's error, which is what line 358 finally stores; on a full
write the counter is atomically increased and the read error is overwritten
by the write's nil error, so the loop continues; with no bytes read, a
non-nil read error breaks the loop.  The rate-limiter call at the top of an
iteration touches only the limiter's own state and is modelled separately
(`wait`).  Returns the final bytes-read value, the loop-exit `err`, and the
loop's events; or, on a panic, the state at the panic. -/
def copyLoop : List IoStep → Int →
    Except (Int × List Event × PanicVal) (Int × Option TaskErr × List Event)
  | [], br => .ok (br, some .eof, [.readBody 0])
  | .panicked p :: _, br => .error (br, [], p)
  | .step n rerr w werr :: rest, br =>
    if n > 0 then
      if werr ≠ none ∨ w ≠ n then
        .ok (br, werr, [.readBody n, .writeDest w, .setError (some .shortWrite)])
      else
        match copyLoop rest (br + n) with
        | .ok (br2, e, evs) =>
          .ok (br2, e, .readBody n :: .writeDest w :: .addBytes n :: evs)
        | .error (br2, evs, p) =>
          .error (br2, .readBody n :: .writeDest w :: .addBytes n :: evs, p)
    else
      match rerr with
      | some e => .ok (br, some e, [.readBody n])
      | none =>
        match copyLoop rest br with
        | .ok (br2, e, evs) => .ok (br2, e, .readBody n :: evs)
        | .error (br2, evs, p) => .error (br2, .readBody n :: evs, p)

/-- Lines 328-332 of `start`: the total size is the response's content
length plus the existing file size only when the content length is positive,
the task is resumable and `fileInfo` is non-nil; otherwise it is the content
length as-is. -/
def totalOf (resp : Response) (fi : Option StatInfo) (isRes : Bool) : Int :=
  if resp.contentLength > 0 ∧ isRes ∧ fi.isSome then
    resp.contentLength + ((fi.getD ⟨false, 0⟩).size : Int)
  else resp.contentLength

/-- Lines 325-360 of `start`: set the task fields, launch the speed sampler,
run the transfer loop, then store the loop-exit error and close the
completion channel.  A panic propagates with the partial state. -/
def runTransfer (env : Env) (resp : Response) (fi : Option StatInfo)
    (isRes : Bool) (br0 : Int) (fileName : List Char) (pre : List Event) :
    Except (TaskFinal × PanicVal) TaskFinal :=
  match copyLoop env.steps br0 with
  | .ok (br, e, evs) =>
    .ok { error := e, bytesRead := br, totalFileSize := totalOf resp fi isRes,
          isResumable := isRes, fileName := fileName,
          trace := pre ++ [Event.startSampler] ++ evs ++ [.setError e, .complete] }
  | .error (br, evs, p) =>
    .error ({ error := none, bytesRead := br, totalFileSize := totalOf resp fi isRes,
              isResumable := isRes, fileName := fileName,
              trace := pre ++ [Event.startSampler] ++ evs }, p)

/-- Lines 316-323 of `start`: the fresh `os.Create` path.  On failure the
completion channel is closed and the function returns — without storing the
error, so `dt.error` stays nil. -/
def createAndRun (env : Env) (resp : Response) (fi : Option StatInfo)
    (fileName : List Char) (pre : List Event) :
    Except (TaskFinal × PanicVal) TaskFinal :=
  if env.createOk then
    runTransfer env resp fi false 0 fileName (pre ++ [Event.createDest])
  else
    .ok { error := none, bytesRead := 0, totalFileSize := 0,
          isResumable := false, fileName := [],
          trace := pre ++ [Event.createDest, Event.complete] }

/-- The body of `start` (`main.go` lines 256-361), without the recovery
barrier.  Notable source facts mirrored here: a failed `client.Do` leaves a
nil response whose `StatusCode` is then read by the error branch — a nil
dereference panic; the error returned by `extractFilename` is assigned to
`err` and immediately overwritten by the `os.Stat` call without ever being
checked, so on a derivation failure `fileName` is simply the empty string;
a failed resume `os.OpenFile` closes the completion channel without storing
the error. -/
def startBody (env : Env) : Except (TaskFinal × PanicVal) TaskFinal :=
  match env.resp1 with
  | none =>
    .error ({ error := none, bytesRead := 0, totalFileSize := 0,
              isResumable := false, fileName := [], trace := [] },
            .errVal .nilDeref)
  | some r1 =>
    if r1.statusCode ≠ 200 ∧ r1.statusCode ≠ 206 then
      .ok { error := some (.httpStatus r1.statusCode), bytesRead := 0,
            totalFileSize := 0, isResumable := false, fileName := [],
            trace := [.setError (some (.httpStatus r1.statusCode)), .complete] }
    else
      let fileName := (extractFilename r1.urlPath r1.cdFilename).getD []
      match env.statResult with
      | none => createAndRun env r1 none fileName []
      | some fi =>
        if fi.isDir then
          createAndRun env r1 (some fi) fileName []
        else if (fi.size : Int) = r1.contentLength then
          .ok { error := some .alreadyDownloaded, bytesRead := 0,
                totalFileSize := 0, isResumable := false, fileName := [],
                trace := [.closeBody, .setError (some .alreadyDownloaded),
                          .complete] }
        else
          match env.resp2 with
          | none =>
            .error ({ error := none, bytesRead := 0, totalFileSize := 0,
                      isResumable := false, fileName := [],
                      trace := [.closeBody, .rangeRequest fi.size] },
                    .errVal .nilDeref)
          | some r2 =>
            if r2.statusCode ≠ 200 ∧ r2.statusCode ≠ 206 then
              .ok { error := some (.httpStatus r2.statusCode), bytesRead := 0,
                    totalFileSize := 0, isResumable := false, fileName := [],
                    trace := [.closeBody, .rangeRequest fi.size,
                              .setError (some (.httpStatus r2.statusCode)),
                              .complete] }
            else if r2.acceptRanges = "bytes" ∨ r2.contentRange ≠ "" then
              if env.openOk then
                runTransfer env r2 (some fi) true (fi.size : Int) fileName
                  [.closeBody, .rangeRequest fi.size, .openExisting, .seekEnd,
                   .seedBytes fi.size]
              else
                .ok { error := none, bytesRead := 0, totalFileSize := 0,
                      isResumable := false, fileName := [],
                      trace := [.closeBody, .rangeRequest fi.size,
                                .openExisting, .complete] }
            else
              createAndRun env r2 (some fi) fileName
                [.closeBody, .rangeRequest fi.size]

/-- The recovery barrier (`main.go` lines 241-254): a panic is converted to
the captured error and the completion channel is closed; a normal return is
passed through. -/
def finish (r : Except (TaskFinal × PanicVal) TaskFinal) : TaskFinal :=
  match r with
  | .ok f => f
  | .error (f, p) =>
    { f with error := some (convertPanic p),
             trace := f.trace ++ [Event.setError (some (convertPanic p)),
                                  Event.complete] }

/-- Model of `start` (`main.go` lines 240-361): the body wrapped in the
recovery barrier. -/
def startModel (env : Env) : TaskFinal :=
  finish (startBody env)

/-- The events that belong to some iteration of the transfer loop. -/
def loopEvent (e : Event) : Prop :=
  (∃ n, e = Event.readBody n) ∨ (∃ n, e = Event.writeDest n) ∨
  (∃ n, e = Event.addBytes n) ∨ e = Event.setError (some TaskErr.shortWrite)

/-- The event list of a transfer-loop result, panicking or not. -/
def loopEvs :
    Except (Int × List Event × PanicVal) (Int × Option TaskErr × List Event) →
      List Event
  | .ok (_, _, evs) => evs
  | .error (_, evs, _) => evs

theorem copyLoop_events :
    ∀ (steps : List IoStep) (br : Int),
      ∀ ev ∈ loopEvs (copyLoop steps br), loopEvent ev := by
  intro steps
  induction steps with
  | nil =>
    intro br ev hev
    simp only [copyLoop, loopEvs, List.mem_singleton] at hev
    exact Or.inl ⟨0, hev⟩
  | cons s rest ih =>
    intro br ev hev
    cases s with
    | panicked p => simp [copyLoop, loopEvs] at hev
    | step n rerr w werr =>
      simp only [copyLoop] at hev
      by_cases hn : n > 0
      · rw [if_pos hn] at hev
        by_cases hw : werr ≠ none ∨ w ≠ n
        · rw [if_pos hw] at hev
          simp only [loopEvs, List.mem_cons, List.mem_singleton] at hev
          rcases hev with h | h | h | h
          · exact Or.inl ⟨n, h⟩
          · exact Or.inr (Or.inl ⟨w, h⟩)
          · exact Or.inr (Or.inr (Or.inr h))
          · simp at h
        · rw [if_neg hw] at hev
          cases hrec : copyLoop rest (br + n) with
          | ok x =>
            obtain ⟨br2, e2, evs⟩ := x
            rw [hrec] at hev
            simp only [loopEvs, List.mem_cons] at hev
            rcases hev with h | h | h | h
            · exact Or.inl ⟨n, h⟩
            · exact Or.inr (Or.inl ⟨w, h⟩)
            · exact Or.inr (Or.inr (Or.inl ⟨n, h⟩))
            · have := ih (br + n) ev (by rw [hrec]; exact h)
              exact this
          | error x =>
            obtain ⟨br2, evs, p⟩ := x
            rw [hrec] at hev
            simp only [loopEvs, List.mem_cons] at hev
            rcases hev with h | h | h | h
            · exact Or.inl ⟨n, h⟩
            · exact Or.inr (Or.inl ⟨w, h⟩)
            · exact Or.inr (Or.inr (Or.inl ⟨n, h⟩))
            · have := ih (br + n) ev (by rw [hrec]; exact h)
              exact this
      · rw [if_neg hn] at hev
        cases rerr with
        | some e2 =>
          simp only [loopEvs, List.mem_singleton] at hev
          exact Or.inl ⟨n, hev⟩
        | none =>
          cases hrec : copyLoop rest br with
          | ok x =>
            obtain ⟨br2, e2, evs⟩ := x
            rw [hrec] at hev
            simp only [loopEvs, List.mem_cons] at hev
            rcases hev with h | h
            · exact Or.inl ⟨n, h⟩
            · exact ih br ev (by rw [hrec]; exact h)
          | error x =>
            obtain ⟨br2, evs, p⟩ := x
            rw [hrec] at hev
            simp only [loopEvs, List.mem_cons] at hev
            rcases hev with h | h
            · exact Or.inl ⟨n, h⟩
            · exact ih br ev (by rw [hrec]; exact h)

theorem loopEvent_ne_complete {ev : Event} (h : loopEvent ev) :
    ev ≠ Event.complete := by
  rcases h with ⟨n, rfl⟩ | ⟨n, rfl⟩ | ⟨n, rfl⟩ | rfl <;> simp

/-- Whether an event writes the bytes-read counter. -/
def isCounterWrite : Event → Bool
  | .seedBytes _ => true
  | .addBytes _ => true
  | _ => false

theorem loopEvent_counter {ev : Event} (h : loopEvent ev)
    (hcw : isCounterWrite ev = true) : ∃ n, ev = Event.addBytes n := by
  rcases h with ⟨n, rfl⟩ | ⟨n, rfl⟩ | ⟨n, rfl⟩ | rfl
  · simp [isCounterWrite] at hcw
  · simp [isCounterWrite] at hcw
  · exact ⟨n, rfl⟩
  · simp [isCounterWrite] at hcw

/-- Apply one counter-writing event to the counter value. -/
def counterStep : Int → Event → Int
  | _, .seedBytes v => (v : Int)
  | b, .addBytes n => b + n
  | b, _ => b

/-- The successive values taken by the bytes-read counter along a trace,
starting from 0 (the zero value of a fresh task struct). -/
def counterValues (tr : List Event) : List Int :=
  (tr.filter isCounterWrite).scanl counterStep 0

/-- Number of completion-signal events in a trace. -/
def completeCount (tr : List Event) : Nat :=
  (tr.filter (fun e => e == Event.complete)).length

/-- A well-formed final trace: the values of the bytes-read counter never
decrease, the completion signal is the final event, and it fires exactly
once. -/
def GoodTrace (tr : List Event) : Prop :=
  List.Chain' (· ≤ ·) (counterValues tr) ∧
  tr.getLast? = some Event.complete ∧
  completeCount tr = 1

theorem scanl_head (f : Int → Event → Int) (b : Int) (l : List Event) :
    (List.scanl f b l).head? = some b := by
  cases l <;> rfl

theorem chain_scanl_adds :
    ∀ l : List Event, (∀ e ∈ l, ∃ n, e = Event.addBytes n) →
      ∀ b : Int, List.Chain' (· ≤ ·) (l.scanl counterStep b) := by
  intro l
  induction l with
  | nil => intro _ b; simp
  | cons e l ih =>
    intro h b
    obtain ⟨n, rfl⟩ := h e (List.mem_cons_self _ _)
    rw [List.scanl_cons, List.singleton_append, List.chain'_cons']
    constructor
    · intro c hc
      rw [scanl_head, Option.mem_def] at hc
      injection hc with hcb
      rw [← hcb]
      show b ≤ b + (n : Int)
      omega
    · exact ih (fun e2 he2 => h e2 (List.mem_cons_of_mem _ he2)) _

theorem completeCount_eq_zero {tr : List Event} (h : Event.complete ∉ tr) :
    completeCount tr = 0 := by
  rw [completeCount, List.length_eq_zero, List.filter_eq_nil_iff]
  intro a ha
  simp only [beq_iff_eq]
  intro hq
  exact h (hq ▸ ha)

theorem goodTrace_shape (t : List Event)
    (hc : Event.complete ∉ t)
    (hcw : (∀ e ∈ t.filter isCounterWrite, ∃ n, e = Event.addBytes n) ∨
           (∃ v l, t.filter isCounterWrite = Event.seedBytes v :: l ∧
             ∀ e ∈ l, ∃ n, e = Event.addBytes n)) :
    GoodTrace (t ++ [Event.complete]) := by
  refine ⟨?_, List.getLast?_concat t, ?_⟩
  · have hfilter : (t ++ [Event.complete]).filter isCounterWrite =
        t.filter isCounterWrite := by
      rw [List.filter_append]
      simp [isCounterWrite]
    rw [counterValues, hfilter]
    rcases hcw with h | ⟨v, l, hl, h⟩
    · exact chain_scanl_adds _ h 0
    · rw [hl, List.scanl_cons, List.singleton_append, List.chain'_cons']
      constructor
      · intro c hc2
        rw [scanl_head, Option.mem_def] at hc2
        injection hc2 with hcb
        rw [← hcb]
        show (0 : Int) ≤ (v : Int)
        omega
      · exact chain_scanl_adds l h _
  · rw [completeCount, List.filter_append, List.length_append]
    have h0 : (t.filter (fun e => e == Event.complete)).length = 0 :=
      completeCount_eq_zero hc
    rw [h0]
    rfl

theorem addsOnly_append {l1 l2 : List Event}
    (h1 : ∀ e ∈ l1, ∃ n, e = Event.addBytes n)
    (h2 : ∀ e ∈ l2, ∃ n, e = Event.addBytes n) :
    ∀ e ∈ l1 ++ l2, ∃ n, e = Event.addBytes n := by
  intro e he
  rcases List.mem_append.mp he with h | h
  exacts [h1 e h, h2 e h]

theorem filter_counter_adds {evs : List Event}
    (h : ∀ ev ∈ evs, loopEvent ev) :
    ∀ e ∈ evs.filter isCounterWrite, ∃ n, e = Event.addBytes n := by
  intro e he
  rw [List.mem_filter] at he
  exact loopEvent_counter (h e he.1) he.2

theorem complete_not_mem_append {l1 l2 : List Event}
    (h1 : Event.complete ∉ l1) (h2 : Event.complete ∉ l2) :
    Event.complete ∉ l1 ++ l2 := by
  intro h
  rcases List.mem_append.mp h with h | h
  exacts [h1 h, h2 h]

/-- A trace with a completion-free prefix, followed by loop events, a final
error store and the completion signal, is well formed, provided the prefix
writes the counter at most by one seed. -/
theorem goodTrace_loopTail (a evs : List Event) (e : Option TaskErr)
    (hca : Event.complete ∉ a)
    (hevs : ∀ ev ∈ evs, loopEvent ev)
    (hcw : (∀ x ∈ a.filter isCounterWrite, ∃ n, x = Event.addBytes n) ∨
           (∃ v l, a.filter isCounterWrite = Event.seedBytes v :: l ∧
             ∀ x ∈ l, ∃ n, x = Event.addBytes n)) :
    GoodTrace (a ++ evs ++ [Event.setError e, Event.complete]) := by
  have hsplit : [Event.setError e, Event.complete] =
      [Event.setError e] ++ [Event.complete] := rfl
  rw [hsplit, ← List.append_assoc]
  apply goodTrace_shape
  · apply complete_not_mem_append
    · apply complete_not_mem_append hca
      intro h
      exact loopEvent_ne_complete (hevs _ h) rfl
    · simp
  · rw [List.filter_append, List.filter_append]
    have hse : [Event.setError e].filter isCounterWrite = [] := rfl
    rw [hse, List.append_nil]
    rcases hcw with h | ⟨v, l, hl, h⟩
    · left
      exact addsOnly_append h (filter_counter_adds hevs)
    · right
      refine ⟨v, l ++ evs.filter isCounterWrite, ?_, ?_⟩
      · rw [hl]
        rfl
      · exact addsOnly_append h (filter_counter_adds hevs)

/-- A completion-free, counter-write-free trace followed by the completion
signal is well formed. -/
theorem goodTrace_noCounter (t : List Event)
    (hc : Event.complete ∉ t)
    (hcw : t.filter isCounterWrite = []) :
    GoodTrace (t ++ [Event.complete]) := by
  apply goodTrace_shape t hc
  left
  rw [hcw]
  intro e he
  simp at he

theorem goodTrace_runTransfer (env : Env) (resp : Response)
    (fi : Option StatInfo) (isRes : Bool) (br0 : Int) (fileName : List Char)
    (pre : List Event)
    (hc : Event.complete ∉ pre)
    (hcw : (∀ x ∈ pre.filter isCounterWrite, ∃ n, x = Event.addBytes n) ∨
           (∃ v l, pre.filter isCounterWrite = Event.seedBytes v :: l ∧
             ∀ x ∈ l, ∃ n, x = Event.addBytes n)) :
    GoodTrace (finish (runTransfer env resp fi isRes br0 fileName pre)).trace := by
  have hca : Event.complete ∉ pre ++ [Event.startSampler] :=
    complete_not_mem_append hc (by simp)
  have hcwa : (∀ x ∈ (pre ++ [Event.startSampler]).filter isCounterWrite,
        ∃ n, x = Event.addBytes n) ∨
      (∃ v l, (pre ++ [Event.startSampler]).filter isCounterWrite =
          Event.seedBytes v :: l ∧ ∀ x ∈ l, ∃ n, x = Event.addBytes n) := by
    have hfs : (pre ++ [Event.startSampler]).filter isCounterWrite =
        pre.filter isCounterWrite := by
      rw [List.filter_append,
        show List.filter isCounterWrite [Event.startSampler] = [] from rfl,
        List.append_nil]
    rw [hfs]
    exact hcw
  unfold runTransfer
  cases hrec : copyLoop env.steps br0 with
  | ok x =>
    obtain ⟨br, e, evs⟩ := x
    have hevs : ∀ ev ∈ evs, loopEvent ev := by
      intro ev hev
      exact copyLoop_events env.steps br0 ev (by rw [hrec]; exact hev)
    simp only [finish]
    exact goodTrace_loopTail (pre ++ [Event.startSampler]) evs e hca hevs hcwa
  | error x =>
    obtain ⟨br, evs, p⟩ := x
    have hevs : ∀ ev ∈ evs, loopEvent ev := by
      intro ev hev
      exact copyLoop_events env.steps br0 ev (by rw [hrec]; exact hev)
    simp only [finish]
    exact goodTrace_loopTail (pre ++ [Event.startSampler]) evs
      (some (convertPanic p)) hca hevs hcwa

theorem goodTrace_createAndRun (env : Env) (resp : Response)
    (fi : Option StatInfo) (fileName : List Char) (pre : List Event)
    (hc : Event.complete ∉ pre)
    (hcw : pre.filter isCounterWrite = []) :
    GoodTrace (finish (createAndRun env resp fi fileName pre)).trace := by
  unfold createAndRun
  by_cases h : env.createOk
  · rw [if_pos h]
    apply goodTrace_runTransfer
    · exact complete_not_mem_append hc (by simp)
    · left
      rw [List.filter_append, hcw]
      intro x hx
      simp only [List.nil_append] at hx
      exact absurd hx (by simp [isCounterWrite])
  · rw [if_neg h]
    simp only [finish]
    have hsplit : pre ++ [Event.createDest, Event.complete] =
        (pre ++ [Event.createDest]) ++ [Event.complete] := by
      rw [List.append_assoc]
      rfl
    rw [hsplit]
    apply goodTrace_noCounter
    · exact complete_not_mem_append hc (by simp)
    · rw [List.filter_append, hcw]
      rfl

/-- Every execution of `start` yields a well-formed trace: the bytes-read
counter never decreases and the completion signal fires exactly once, as the
final event. -/
theorem startModel_good (env : Env) : GoodTrace (startModel env).trace := by
  unfold startModel startBody
  cases h1 : env.resp1 with
  | none =>
    simp only [finish]
    rw [show ([] : List Event) ++
        [Event.setError (some (convertPanic (.errVal .nilDeref))), Event.complete] =
        [Event.setError (some (convertPanic (.errVal .nilDeref)))] ++
        [Event.complete] from rfl]
    apply goodTrace_noCounter <;> simp [isCounterWrite]
  | some r1 =>
    by_cases hst : r1.statusCode ≠ 200 ∧ r1.statusCode ≠ 206
    · simp only [if_pos hst, finish]
      rw [show [Event.setError (some (.httpStatus r1.statusCode)), Event.complete] =
          [Event.setError (some (.httpStatus r1.statusCode))] ++
          [Event.complete] from rfl]
      apply goodTrace_noCounter <;> simp [isCounterWrite]
    · simp only [if_neg hst]
      cases h2 : env.statResult with
      | none => exact goodTrace_createAndRun env r1 none _ [] (by simp) rfl
      | some fi =>
        by_cases hdir : fi.isDir = true
        · simp only [if_pos hdir]
          exact goodTrace_createAndRun env r1 (some fi) _ [] (by simp) rfl
        · simp only [if_neg hdir]
          by_cases hsz : (fi.size : Int) = r1.contentLength
          · simp only [if_pos hsz, finish]
            rw [show [Event.closeBody, Event.setError (some .alreadyDownloaded),
                Event.complete] =
                [Event.closeBody, Event.setError (some .alreadyDownloaded)] ++
                [Event.complete] from rfl]
            apply goodTrace_noCounter <;> simp [isCounterWrite]
          · simp only [if_neg hsz]
            cases h3 : env.resp2 with
            | none =>
              simp only [finish]
              rw [show [Event.closeBody, Event.rangeRequest fi.size] ++
                  [Event.setError (some (convertPanic (.errVal .nilDeref))),
                   Event.complete] =
                  [Event.closeBody, Event.rangeRequest fi.size,
                   Event.setError (some (convertPanic (.errVal .nilDeref)))] ++
                  [Event.complete] from rfl]
              apply goodTrace_noCounter <;> simp [isCounterWrite]
            | some r2 =>
              by_cases hst2 : r2.statusCode ≠ 200 ∧ r2.statusCode ≠ 206
              · simp only [if_pos hst2, finish]
                rw [show [Event.closeBody, Event.rangeRequest fi.size,
                    Event.setError (some (.httpStatus r2.statusCode)),
                    Event.complete] =
                    [Event.closeBody, Event.rangeRequest fi.size,
                     Event.setError (some (.httpStatus r2.statusCode))] ++
                    [Event.complete] from rfl]
                apply goodTrace_noCounter <;> simp [isCounterWrite]
              · simp only [if_neg hst2]
                by_cases hrange : r2.acceptRanges = "bytes" ∨ r2.contentRange ≠ ""
                · simp only [if_pos hrange]
                  by_cases hopen : env.openOk = true
                  · simp only [if_pos hopen]
                    apply goodTrace_runTransfer
                    · simp
                    · right
                      exact ⟨fi.size, [], rfl, by simp⟩
                  · simp only [if_neg hopen, finish]
                    rw [show [Event.closeBody, Event.rangeRequest fi.size,
                        Event.openExisting, Event.complete] =
                        [Event.closeBody, Event.rangeRequest fi.size,
                         Event.openExisting] ++ [Event.complete] from rfl]
                    apply goodTrace_noCounter <;> simp [isCounterWrite]
                · simp only [if_neg hrange]
                  exact goodTrace_createAndRun env r2 (some fi) _
                    [Event.closeBody, Event.rangeRequest fi.size] (by simp) rfl

/-- C10: for every task execution, the bytes-read counter is monotonically
non-decreasing — it is seeded at most once, before any increment, and only
ever increased (by the amount of a fully written read), never reset — and
the completion signal is the final event of the execution and fires exactly
once, so after it fires no further write to the bytes-read counter or the
error field occurs. -/
theorem c10_bytesRead_monotone (env : Env) :
    List.Chain' (· ≤ ·) (counterValues (startModel env).trace) ∧
    (startModel env).trace.getLast? = some Event.complete ∧
    completeCount (startModel env).trace = 1 :=
  startModel_good env

/-- C6: every execution of a task's run fires the completion signal exactly
once, and when the body raises a panic the recovery barrier converts the
panic value into the captured error field; the fault never escapes the
task's execution unit (`startModel` is a total function of the
environment), so a failed task can neither hang the orchestrator waiting on
the channel nor crash the process. -/
theorem c6_panic_recovery (env : Env) :
    completeCount (startModel env).trace = 1 ∧
    (∀ f p, startBody env = Except.error (f, p) →
      (startModel env).error = some (convertPanic p)) := by
  refine ⟨(startModel_good env).2.2, ?_⟩
  intro f p h
  unfold startModel
  rw [h]
  rfl

/-- The environment whose first request fails at transport level: the body
then dereferences the nil response and panics. -/
def envPanic : Env :=
  { resp1 := none, statResult := none, resp2 := none,
    openOk := true, createOk := true, steps := [] }

/-- C6 witness: on the transport-error environment the body panics with the
nil-dereference runtime error; completion still fires exactly once and the
converted panic is the captured error. -/
theorem c6_panic_recovery_witness :
    completeCount (startModel envPanic).trace = 1 ∧
    (startModel envPanic).error =
      some (convertPanic (PanicVal.errVal TaskErr.nilDeref)) :=
  ⟨(c6_panic_recovery envPanic).1,
   (c6_panic_recovery envPanic).2 _ _ rfl⟩

/-- C3: a task for which `os.Stat` of the derived file name reports an
existing non-directory file whose size equals the response's declared
content length sets the distinguished "file already downloaded" error,
fires its completion signal exactly once, and ends without reading any
response-body bytes and without opening, creating or writing any file. -/
theorem c3_already_downloaded (env : Env) (r1 : Response) (fi : StatInfo)
    (h1 : env.resp1 = some r1)
    (hs1 : r1.statusCode = 200 ∨ r1.statusCode = 206)
    (h2 : env.statResult = some fi) (hdir : fi.isDir = false)
    (hsz : (fi.size : Int) = r1.contentLength) :
    (startModel env).error = some TaskErr.alreadyDownloaded ∧
    completeCount (startModel env).trace = 1 ∧
    ∀ e ∈ (startModel env).trace,
      (∀ n, e ≠ Event.readBody n) ∧ (∀ n, e ≠ Event.writeDest n) ∧
      e ≠ Event.createDest ∧ e ≠ Event.openExisting := by
  have hst : ¬(r1.statusCode ≠ 200 ∧ r1.statusCode ≠ 206) := by tauto
  have hdir2 : ¬(fi.isDir = true) := by simp [hdir]
  have hmodel : startModel env =
      { error := some .alreadyDownloaded, bytesRead := 0, totalFileSize := 0,
        isResumable := false, fileName := [],
        trace := [.closeBody, .setError (some .alreadyDownloaded),
                  .complete] } := by
    unfold startModel startBody
    rw [h1]
    simp only [if_neg hst, h2, if_neg hdir2, if_pos hsz, finish]
  refine ⟨by rw [hmodel], by rw [hmodel]; rfl, ?_⟩
  intro e he
  rw [hmodel] at he
  simp only [List.mem_cons, List.not_mem_nil, or_false] at he
  rcases he with rfl | rfl | rfl <;> refine ⟨?_, ?_, ?_, ?_⟩ <;> simp

/-- A concrete already-downloaded environment: existing file of size 10,
declared content length 10. -/
def envAlready : Env :=
  { resp1 := some
      { statusCode := 200, contentLength := 10, acceptRanges := "",
        contentRange := "", urlPath := ['f'], cdFilename := none },
    statResult := some { isDir := false, size := 10 },
    resp2 := none, openOk := true, createOk := true, steps := [] }

/-- C3 witness. -/
theorem c3_already_downloaded_witness :
    (startModel envAlready).error = some TaskErr.alreadyDownloaded ∧
    completeCount (startModel envAlready).trace = 1 :=
  ⟨(c3_already_downloaded envAlready _ _ rfl (Or.inl rfl) rfl rfl
      (by decide)).1,
   (c3_already_downloaded envAlready _ _ rfl (Or.inl rfl) rfl rfl
      (by decide)).2.1⟩

/-- C7: the task proceeds past the initial GET only on HTTP 200 or 206.
On any other status, and on a transport error before any byte is written
(where the nil response makes the status formatting panic, which the
recovery barrier converts), the task's terminal error is set, the
completion signal fires exactly once, and the task ends without opening,
creating or writing any file. -/
theorem c7_negotiation_failure (env : Env)
    (h : env.resp1 = none ∨
      ∃ r1, env.resp1 = some r1 ∧ r1.statusCode ≠ 200 ∧ r1.statusCode ≠ 206) :
    (startModel env).error.isSome = true ∧
    completeCount (startModel env).trace = 1 ∧
    ∀ e ∈ (startModel env).trace,
      e ≠ Event.createDest ∧ e ≠ Event.openExisting ∧
      (∀ n, e ≠ Event.writeDest n) := by
  rcases h with h | ⟨r1, h, hst1, hst2⟩
  · have hmodel : startModel env =
        { error := some (convertPanic (.errVal .nilDeref)), bytesRead := 0,
          totalFileSize := 0, isResumable := false, fileName := [],
          trace := [.setError (some (convertPanic (.errVal .nilDeref))),
                    .complete] } := by
      unfold startModel startBody
      rw [h]
      rfl
    refine ⟨by rw [hmodel]; rfl, by rw [hmodel]; rfl, ?_⟩
    intro e he
    rw [hmodel] at he
    simp only [List.mem_cons, List.not_mem_nil, or_false] at he
    rcases he with rfl | rfl <;> refine ⟨?_, ?_, ?_⟩ <;> simp
  · have hmodel : startModel env =
        { error := some (.httpStatus r1.statusCode), bytesRead := 0,
          totalFileSize := 0, isResumable := false, fileName := [],
          trace := [.setError (some (.httpStatus r1.statusCode)),
                    .complete] } := by
      unfold startModel startBody
      rw [h]
      simp only [if_pos (And.intro hst1 hst2), finish]
    refine ⟨by rw [hmodel]; rfl, by rw [hmodel]; rfl, ?_⟩
    intro e he
    rw [hmodel] at he
    simp only [List.mem_cons, List.not_mem_nil, or_false] at he
    rcases he with rfl | rfl <;> refine ⟨?_, ?_, ?_⟩ <;> simp

/-- A concrete rejected-negotiation environment: HTTP 404. -/
def envBadStatus : Env :=
  { resp1 := some
      { statusCode := 404, contentLength := 10, acceptRanges := "",
        contentRange := "", urlPath := ['f'], cdFilename := none },
    statResult := none, resp2 := none, openOk := true, createOk := true,
    steps := [] }

/-- C7 witness. -/
theorem c7_negotiation_failure_witness :
    (startModel envBadStatus).error.isSome = true ∧
    completeCount (startModel envBadStatus).trace = 1 :=
  ⟨(c7_negotiation_failure envBadStatus
      (Or.inr ⟨_, rfl, by decide, by decide⟩)).1,
   (c7_negotiation_failure envBadStatus
      (Or.inr ⟨_, rfl, by decide, by decide⟩)).2.1⟩

/-- C1 amended: with an existing non-directory file of size S whose size
differs from the first response's declared content length, the task
re-issues the request with `Range: bytes=S-`; whenever the second response
confirms range support (`Accept-Ranges: bytes` or non-empty
`Content-Range`) and the reopen succeeds, the task reopens the existing
file, seeks to its end, seeds the bytes-read counter with S and marks
itself resumable — but the total expected size is S plus the new response's
content length only when that content length is positive; otherwise the
total is the raw content length (e.g. -1 for unknown). -/
theorem c1_resume_negotiation (env : Env) (r1 r2 : Response) (fi : StatInfo)
    (h1 : env.resp1 = some r1)
    (hs1 : r1.statusCode = 200 ∨ r1.statusCode = 206)
    (h2 : env.statResult = some fi) (hdir : fi.isDir = false)
    (hsz : (fi.size : Int) ≠ r1.contentLength)
    (h3 : env.resp2 = some r2)
    (hs2 : r2.statusCode = 200 ∨ r2.statusCode = 206)
    (hrange : r2.acceptRanges = "bytes" ∨ r2.contentRange ≠ "")
    (hopen : env.openOk = true) :
    Event.rangeRequest fi.size ∈ (startModel env).trace ∧
    Event.openExisting ∈ (startModel env).trace ∧
    Event.seekEnd ∈ (startModel env).trace ∧
    Event.seedBytes fi.size ∈ (startModel env).trace ∧
    (startModel env).isResumable = true ∧
    (startModel env).totalFileSize =
      (if r2.contentLength > 0 then r2.contentLength + (fi.size : Int)
       else r2.contentLength) := by
  have hst1 : ¬(r1.statusCode ≠ 200 ∧ r1.statusCode ≠ 206) := by tauto
  have hst2 : ¬(r2.statusCode ≠ 200 ∧ r2.statusCode ≠ 206) := by tauto
  have hdir2 : ¬(fi.isDir = true) := by simp [hdir]
  have hred : startModel env =
      finish (runTransfer env r2 (some fi) true (fi.size : Int)
        ((extractFilename r1.urlPath r1.cdFilename).getD [])
        [.closeBody, .rangeRequest fi.size, .openExisting, .seekEnd,
         .seedBytes fi.size]) := by
    unfold startModel startBody
    rw [h1]
    simp only [if_neg hst1, h2, if_neg hdir2, if_neg hsz, h3,
      if_neg hst2, if_pos hrange, if_pos hopen]
  have htot : totalOf r2 (some fi) true =
      (if r2.contentLength > 0 then r2.contentLength + (fi.size : Int)
       else r2.contentLength) := by
    simp [totalOf]
  rw [hred]
  unfold runTransfer
  cases hrec : copyLoop env.steps (fi.size : Int) with
  | ok x =>
    obtain ⟨br, e, evs⟩ := x
    simp only [finish]
    refine ⟨?_, ?_, ?_, ?_, ?_, htot⟩ <;> simp
  | error x =>
    obtain ⟨br, evs, p⟩ := x
    simp only [finish]
    refine ⟨?_, ?_, ?_, ?_, ?_, htot⟩ <;> simp

/-- A resume environment whose second response has positive content
length 3 for an existing partial file of size 10. -/
def envResumeW : Env :=
  { resp1 := some
      { statusCode := 200, contentLength := 7, acceptRanges := "",
        contentRange := "", urlPath := ['f'], cdFilename := none },
    statResult := some { isDir := false, size := 10 },
    resp2 := some
      { statusCode := 206, contentLength := 3, acceptRanges := "bytes",
        contentRange := "", urlPath := ['f'], cdFilename := none },
    openOk := true, createOk := true, steps := [] }

/-- C1 amended witness. -/
theorem c1_resume_negotiation_witness :
    Event.rangeRequest 10 ∈ (startModel envResumeW).trace ∧
    Event.seedBytes 10 ∈ (startModel envResumeW).trace ∧
    (startModel envResumeW).isResumable = true ∧
    (startModel envResumeW).totalFileSize = 13 := by
  have h := c1_resume_negotiation envResumeW _ _ _ rfl (Or.inl rfl) rfl rfl
    (by decide) rfl (Or.inr rfl) (Or.inl rfl) rfl
  exact ⟨h.1, h.2.2.2.1, h.2.2.2.2.1, by rw [h.2.2.2.2.2]; decide⟩

/-- A resume environment identical to `envResumeW` except the second
response's content length is the unknown sentinel -1. -/
def envC1cex : Env :=
  { resp1 := some
      { statusCode := 200, contentLength := 7, acceptRanges := "",
        contentRange := "", urlPath := ['f'], cdFilename := none },
    statResult := some { isDir := false, size := 10 },
    resp2 := some
      { statusCode := 206, contentLength := -1, acceptRanges := "bytes",
        contentRange := "", urlPath := ['f'], cdFilename := none },
    openOk := true, createOk := true, steps := [] }

/-- C1 counterexample: on the resume path (the task is resumable and seeded
with S = 10) with the second response's content length unknown (-1), the
claim demands total = S + content length = 9; the code's
`response.ContentLength > 0` guard leaves the raw content length -1
instead, refuting the claim as stated. -/
theorem c1_resume_counterexample :
    (startModel envC1cex).isResumable = true ∧
    Event.seedBytes 10 ∈ (startModel envC1cex).trace ∧
    (startModel envC1cex).totalFileSize = -1 ∧
    (startModel envC1cex).totalFileSize ≠ 10 + (-1) := by
  refine ⟨?_, ?_, ?_, ?_⟩ <;> decide

/-- A transfer in which a 5-byte read is followed by a write reporting only
3 bytes written with a nil error. -/
def envShortWrite : Env :=
  { resp1 := some
      { statusCode := 200, contentLength := 5, acceptRanges := "",
        contentRange := "", urlPath := ['f'], cdFilename := none },
    statResult := none, resp2 := none, openOk := true, createOk := true,
    steps := [IoStep.step 5 none 3 none] }

/-- C5 (code bug): on a short write the loop assigns `io.ErrShortWrite` to
`dt.error` and breaks, but line 358 (`dt.error = err`) then overwrites it
with the write call's own error — nil here — so the captured terminal error
is not the short-write condition (the counter is, correctly, not
incremented by the failed write). -/
theorem c5_short_write_overwritten :
    (startModel envShortWrite).error = none ∧
    (startModel envShortWrite).error ≠ some TaskErr.shortWrite ∧
    Event.setError (some TaskErr.shortWrite) ∈ (startModel envShortWrite).trace ∧
    Event.addBytes 5 ∉ (startModel envShortWrite).trace := by
  refine ⟨?_, ?_, ?_, ?_⟩ <;> decide

/-- An environment whose fresh `os.Create` fails. -/
def envCreateFail : Env :=
  { resp1 := some
      { statusCode := 200, contentLength := 5, acceptRanges := "",
        contentRange := "", urlPath := ['f'], cdFilename := none },
    statResult := none, resp2 := none, openOk := true, createOk := false,
    steps := [] }

/-- An environment whose resume `os.OpenFile` fails. -/
def envOpenFail : Env :=
  { resp1 := some
      { statusCode := 200, contentLength := 7, acceptRanges := "",
        contentRange := "", urlPath := ['f'], cdFilename := none },
    statResult := some { isDir := false, size := 10 },
    resp2 := some
      { statusCode := 206, contentLength := 3, acceptRanges := "bytes",
        contentRange := "", urlPath := ['f'], cdFilename := none },
    openOk := false, createOk := true, steps := [] }

/-- C9 (code bug): when `os.Create` (fresh path) or `os.OpenFile` (resume
path) fails, the task does end immediately — completion fires and no
sampler launch, read or write follows — but the file-system error is never
stored: both failure branches return after closing the channel without
assigning `dt.error`, which stays nil, contradicting the claim that the
task ends with that error captured. -/
theorem c9_open_create_failure :
    ((startModel envCreateFail).error = none ∧
     (startModel envCreateFail).trace = [Event.createDest, Event.complete]) ∧
    ((startModel envOpenFail).error = none ∧
     (startModel envOpenFail).trace =
       [Event.closeBody, Event.rangeRequest 10, Event.openExisting,
        Event.complete]) := by
  refine ⟨⟨?_, ?_⟩, ?_, ?_⟩ <;> decide

/-- An environment whose first response has an empty URL path and no
Content-Disposition, so filename derivation fails; `os.Stat("")` fails too,
and the code goes on to attempt `os.Create("")`, which fails. -/
def envEmptyName : Env :=
  { resp1 := some
      { statusCode := 200, contentLength := 5, acceptRanges := "",
        contentRange := "", urlPath := [], cdFilename := none },
    statResult := none, resp2 := none, openOk := true, createOk := false,
    steps := [] }

/-- C4 counterexample: two concrete refutations of the claim as stated.
First, the derived name "../x" contains "../" and yet `extractFilename`
does not return the filename-failure condition — it accepts the name,
sanitized to "x".  Second, even when derivation does fail (empty URL path,
as in `envEmptyName`), the rejected name is not kept from file creation:
`start` ignores the failure condition and passes the empty fallback name to
`os.Create` — the `createDest` event occurs in the trace. -/
theorem c4_filename_counterexample :
    (['.', '.', '/'] <:+: derivedName ['.', '.', '/', 'x'] none ∧
     extractFilename ['.', '.', '/', 'x'] none = some ['x']) ∧
    (extractFilename [] none = none ∧
     Event.createDest ∈ (startModel envEmptyName).trace) := by
  refine ⟨⟨?_, ?_⟩, ?_, ?_⟩ <;> decide

/-- C4 amended: filename derivation rejects (returns the filename-failure
condition) every derived name that is empty, ends in a path separator, or
contains an embedded NUL; a name containing "../" is not rejected but, like
every accepted name, is sanitized by resolving it against a clean root
(`Base(Clean("/" + name))`), so every accepted name is a single nonempty
path component other than "." and ".." — it cannot escape the working
directory.  The caller, however, ignores the returned failure condition
(the error assigned at `main.go` line 282 is overwritten by the `os.Stat`
call at line 284 without ever being checked), so when derivation fails the
empty fallback name is still passed on to file creation. -/
theorem c4_filename_sanitization :
    (∀ (urlPath : List Char) (cdFilename : Option (List Char)),
      ((derivedName urlPath cdFilename = [] ∨
        (derivedName urlPath cdFilename).getLast? = some '/' ∨
        nulChar ∈ derivedName urlPath cdFilename) →
        extractFilename urlPath cdFilename = none) ∧
      (∀ r, extractFilename urlPath cdFilename = some r →
        '/' ∉ r ∧ r ≠ [] ∧ r ≠ ['.'] ∧ r ≠ ['.', '.'])) ∧
    (∀ (env : Env) (r1 : Response),
      env.resp1 = some r1 →
      (r1.statusCode = 200 ∨ r1.statusCode = 206) →
      extractFilename r1.urlPath r1.cdFilename = none →
      env.statResult = none →
      Event.createDest ∈ (startModel env).trace ∧
      (startModel env).fileName = []) := by
  refine ⟨extractFilename_spec, ?_⟩
  intro env r1 h1 hs1 hext hstat
  have hst : ¬(r1.statusCode ≠ 200 ∧ r1.statusCode ≠ 206) := by tauto
  have hred : startModel env =
      finish (createAndRun env r1 none
        ((extractFilename r1.urlPath r1.cdFilename).getD []) []) := by
    unfold startModel startBody
    rw [h1]
    simp only [if_neg hst, hstat]
  rw [hred, hext]
  unfold createAndRun
  by_cases hcr : env.createOk = true
  · simp only [if_pos hcr]
    unfold runTransfer
    cases hrec : copyLoop env.steps 0 with
    | ok x =>
      obtain ⟨br, e, evs⟩ := x
      simp only [finish]
      exact ⟨by simp, by simp⟩
    | error x =>
      obtain ⟨br, evs, p⟩ := x
      simp only [finish]
      exact ⟨by simp, by simp⟩
  · simp only [if_neg hcr, finish]
    exact ⟨by simp, by simp⟩

/-- C4 amended witness: the empty derived name is rejected; the accepted
name derived from the path "a/b" is the escape-free single component "b";
and on the concrete task `envEmptyName`, whose derivation fails, the empty
name still reaches `os.Create`. -/
theorem c4_filename_sanitization_witness :
    extractFilename [] none = none ∧
    ('/' ∉ ['b'] ∧ ['b'] ≠ ([] : List Char) ∧ ['b'] ≠ ['.'] ∧ ['b'] ≠ ['.', '.']) ∧
    Event.createDest ∈ (startModel envEmptyName).trace :=
  ⟨(c4_filename_sanitization.1 [] none).1 (Or.inl rfl),
   (c4_filename_sanitization.1 ['a', '/', 'b'] none).2 ['b'] (by decide),
   (c4_filename_sanitization.2 envEmptyName _ rfl (Or.inl rfl) (by decide)
     rfl).1⟩

end GoGrab
